import Mathlib

/-!
Verification of the jivedrop transcode pipeline (linuxmatters/jivedrop).

The definitions below are a shallow embedding of the Go sources:
  * internal/encoder/encoder.go — configuration validation (New), the
    resource life-cycle (Initialize / Close), the encoder preset
    (openOutput, initFilter), the encode loop with its three-stage
    end-of-stream flush (Encode, encodeFrame, flushEncoder);
  * internal/ui/encode.go — the bounded progress channel;
  * cmd/jivedrop/main.go — sanitiseForFilename.

Machine integers (int, int64, rune) are modelled as Nat/Int; sample
counts are Nat because ffmpeg frame sample counts are non-negative.
Native ffmpeg calls that live outside this repository are modelled by
their observable effect on the pipeline state (which pointer fields
become non-nil, which frames/packets a stage yields), never by the
codec mathematics itself.
-/

/-! ## sanitiseForFilename (cmd/jivedrop/main.go, lines 103-117) -/

/-- Character predicate of the keep-loop in sanitiseForFilename:
the Go code keeps a rune r when
a <= r <= z, 0 <= r <= 9, or r is one of hyphen, underscore, dot.
Rune comparison in Go is comparison of the code points, modelled here
through Char.toNat. -/
def allowedChar (c : Char) : Bool :=
  ('a'.toNat ≤ c.toNat && c.toNat ≤ 'z'.toNat) ||
  ('0'.toNat ≤ c.toNat && c.toNat ≤ '9'.toNat) ||
  c.toNat = '-'.toNat || c.toNat = '_'.toNat || c.toNat = '.'.toNat

/-- Lowercasing of one character. strings.ToLower lowercases every rune;
on the ASCII range (the only characters the final filter of
sanitiseForFilename retains) the Unicode mapping is exactly this
A-Z shift by 32, and on every other retained character it is the
identity, so the embedding restricts the mapping to that range. -/
def toLowerChar (c : Char) : Char :=
  if 'A'.toNat ≤ c.toNat ∧ c.toNat ≤ 'Z'.toNat then Char.ofNat (c.toNat + 32) else c

/-- Translation of sanitiseForFilename (main.go 103-117): replace every
space by a hyphen (strings.ReplaceAll with a single-character pattern
acts rune-wise), lowercase, then keep only the allowed characters. -/
def sanitiseForFilename (s : String) : String :=
  let replaced := s.data.map fun c => if c = ' ' then '-' else c
  let lowered := replaced.map toLowerChar
  String.mk (lowered.filter allowedChar)

/-! ## Bounded progress channel (internal/ui/encode.go) -/

/-- ProgressUpdate (ui/encode.go 13-17) without the error field, which the
progress callback never sets. -/
structure ProgressUpdate where
  samplesProcessed : Int
  totalSamples : Int
deriving DecidableEq, Repr

/-- Capacity of the progress channel created in NewEncodeModel
(ui/encode.go 65): make(chan ProgressUpdate, 10). -/
def progressChanCap : Nat := 10

/-- Non-blocking send performed by the progress callback in startEncoding
(ui/encode.go 139-149): a select with a default branch. The channel is
modelled as the list of pending updates, oldest first. If the channel
has free capacity the update is appended; otherwise the select takes the
default branch and the update is skipped. The function is total: the
send never waits. -/
def trySendProgress (ch : List ProgressUpdate) (u : ProgressUpdate) : List ProgressUpdate :=
  if ch.length < progressChanCap then ch ++ [u] else ch

/-! ## Encoder construction (encoder.go New, lines 44-58) -/

/-- Config (encoder.go 37-41). -/
structure Config where
  inputPath : String
  outputPath : String
  stereo : Bool
deriving DecidableEq, Repr

/-- Pointer state of the native resources held by an Encoder. Each field
is true when the corresponding Go pointer field is non-nil. -/
structure Res where
  ifmtCtx : Bool
  ofmtCtx : Bool
  decCtx : Bool
  encCtx : Bool
  decFrame : Bool
  encPkt : Bool
  filterGraph : Bool
  filteredFrame : Bool
  pb : Bool
deriving DecidableEq, Repr

/-- Pointer state of a freshly constructed Encoder: every native pointer
is nil. -/
def Res.fresh : Res :=
  { ifmtCtx := false, ofmtCtx := false, decCtx := false, encCtx := false,
    decFrame := false, encPkt := false, filterGraph := false,
    filteredFrame := false, pb := false }

/-- Encoder value as produced by New (encoder.go 52-57): the three
configuration fields, streamIndex = -1, and no native resource. -/
structure Encoder where
  inputPath : String
  outputPath : String
  stereo : Bool
  streamIndex : Int
  res : Res
deriving DecidableEq, Repr

/-- New (encoder.go 44-58): reject an empty input path, then an empty
output path, otherwise return the pure Encoder value. No native call
happens before the two checks. -/
def New (cfg : Config) : Except String Encoder :=
  if cfg.inputPath = "" then .error "input path is required"
  else if cfg.outputPath = "" then .error "output path is required"
  else .ok { inputPath := cfg.inputPath, outputPath := cfg.outputPath,
             stereo := cfg.stereo, streamIndex := -1, res := Res.fresh }

/-! ## Output preset (encoder.go openOutput, lines 146-244) -/

/-- Channel layout constants used by openOutput. -/
inductive ChannelLayout where
  | mono
  | stereo
deriving DecidableEq, Repr

/-- Settings written into the encoder context and its option dictionary
by openOutput (encoder.go 173-213). -/
structure EncoderSettings where
  bitRate : Int
  channels : Nat
  channelLayout : ChannelLayout
  sampleRate : Int
  sampleFmt : String
  timeBaseNum : Int
  timeBaseDen : Int
  opts : List (String × String)
deriving DecidableEq, Repr

/-- Encoder configuration performed by openOutput (encoder.go 173-213):
the stereo flag selects 192000 bps / 2 channels / stereo layout, the
mono branch 112000 bps / 1 channel / mono layout; both branches then set
sample rate 44100, planar signed 16-bit samples, time base 1/44100, and
the LAME options compression_level=3 and cutoff=20500. -/
def openOutputSettings (stereo : Bool) : EncoderSettings :=
  let (bitRate, channels, layout) :=
    if stereo then ((192000 : Int), (2 : Nat), ChannelLayout.stereo)
    else ((112000 : Int), (1 : Nat), ChannelLayout.mono)
  { bitRate := bitRate, channels := channels, channelLayout := layout,
    sampleRate := 44100, sampleFmt := "s16p",
    timeBaseNum := 1, timeBaseDen := 44100,
    opts := [("compression_level", "3"), ("cutoff", "20500")] }

/-! ## Close (encoder.go, lines 554-583) -/

/-- Names of the native resources released by Close. pb is the AVIO
handle of the output context. -/
inductive RName where
  | ifmtCtx
  | ofmtCtx
  | decCtx
  | encCtx
  | decFrame
  | encPkt
  | filterGraph
  | filteredFrame
  | pb
deriving DecidableEq, Repr

/-- Resource acquisition order of Initialize, used to list which
resources a pointer state holds. -/
def acquisitionOrder : List RName :=
  [.ifmtCtx, .decCtx, .ofmtCtx, .encCtx, .pb, .decFrame, .filteredFrame, .encPkt, .filterGraph]

/-- Reads the pointer field named by an RName. -/
def resHas (r : Res) : RName → Bool
  | .ifmtCtx => r.ifmtCtx
  | .ofmtCtx => r.ofmtCtx
  | .decCtx => r.decCtx
  | .encCtx => r.encCtx
  | .decFrame => r.decFrame
  | .encPkt => r.encPkt
  | .filterGraph => r.filterGraph
  | .filteredFrame => r.filteredFrame
  | .pb => r.pb

/-- Resources currently held (non-nil pointers), in acquisition order. -/
def allocatedList (r : Res) : List RName :=
  acquisitionOrder.filter (resHas r)

/-- Close (encoder.go 554-583). Every release is guarded by a nil check
on the pointer field. The frees that take the address of the field
(AVFrameFree, AVPacketFree, AVFilterGraphFree, AVCodecFreeContext,
AVFormatCloseInput) also reset the field to nil, and SetPb(nil) resets
pb; AVFormatFreeContext receives the ofmtCtx pointer by value, and the
code never resets e.ofmtCtx, so that field keeps its old value.
nofile models the AVFMT_NOFILE flag of the output format (false for
mp3). Returns the pointer state after the call together with the list
of releases performed, in program order. -/
def Close (nofile : Bool) (r : Res) : Res × List RName :=
  let frees :=
    (if r.filteredFrame then [RName.filteredFrame] else []) ++
    (if r.encPkt then [RName.encPkt] else []) ++
    (if r.decFrame then [RName.decFrame] else []) ++
    (if r.filterGraph then [RName.filterGraph] else []) ++
    (if r.encCtx then [RName.encCtx] else []) ++
    (if r.decCtx then [RName.decCtx] else []) ++
    (if r.ofmtCtx then
      (if !nofile && r.pb then [RName.pb] else []) ++ [RName.ofmtCtx]
    else []) ++
    (if r.ifmtCtx then [RName.ifmtCtx] else [])
  ({ r with filteredFrame := false, encPkt := false, decFrame := false,
            filterGraph := false, encCtx := false, decCtx := false,
            pb := if r.ofmtCtx && !nofile && r.pb then false else r.pb,
            ifmtCtx := false },
   frees)

/-! ## Initialize (encoder.go, lines 61-85) -/

/-- Failure points of Initialize, grouped by which resources have been
acquired when the failing native call returns. -/
inductive InitStep where
  | inOpen
  | inProbe
  | inDecoder
  | outAlloc
  | outEnc
  | outCodec
  | outAvio
  | outHeader
  | filterAlloc
  | filterBuild
deriving DecidableEq, Repr, Fintype

/-- openInput (encoder.go 88-143): AVFormatOpenInput acquires ifmtCtx
(failing before it acquires nothing), the probe / stream-selection /
decoder-lookup steps can fail with only ifmtCtx held, and the
parameter-copy / AVCodecOpen2 steps can fail with ifmtCtx and decCtx
held. On success both are held. Returns (success, pointer state,
resources acquired). -/
def openInputSim (fail : Option InitStep) (r : Res) : Bool × Res × List RName :=
  match fail with
  | some .inOpen => (false, r, [])
  | some .inProbe => (false, { r with ifmtCtx := true }, [.ifmtCtx])
  | some .inDecoder =>
      (false, { r with ifmtCtx := true, decCtx := true }, [.ifmtCtx, .decCtx])
  | _ => (true, { r with ifmtCtx := true, decCtx := true }, [.ifmtCtx, .decCtx])

/-- openOutput (encoder.go 146-244): AVFormatAllocOutputContext2 acquires
ofmtCtx, AVCodecAllocContext3 acquires encCtx, AVIOOpen acquires pb when
the format is file-based, and AVFormatWriteHeader can fail last. -/
def openOutputSim (nofile : Bool) (fail : Option InitStep) (r : Res) :
    Bool × Res × List RName :=
  match fail with
  | some .outAlloc => (false, r, [])
  | some .outEnc => (false, { r with ofmtCtx := true }, [.ofmtCtx])
  | some .outCodec =>
      (false, { r with ofmtCtx := true, encCtx := true }, [.ofmtCtx, .encCtx])
  | some .outAvio =>
      (false, { r with ofmtCtx := true, encCtx := true }, [.ofmtCtx, .encCtx])
  | some .outHeader =>
      (false, { r with ofmtCtx := true, encCtx := true, pb := !nofile },
       [.ofmtCtx, .encCtx] ++ if nofile then [] else [.pb])
  | _ =>
      (true, { r with ofmtCtx := true, encCtx := true, pb := !nofile },
       [.ofmtCtx, .encCtx] ++ if nofile then [] else [.pb])

/-- initFilter (encoder.go 247-345): AVFilterGraphAlloc acquires
filterGraph (a nil result fails with nothing new held); every later
step (filter lookup, source and sink creation, graph parse, graph
config) can fail with filterGraph held. -/
def initFilterSim (fail : Option InitStep) (r : Res) : Bool × Res × List RName :=
  match fail with
  | some .filterAlloc => (false, r, [])
  | some .filterBuild => (false, { r with filterGraph := true }, [.filterGraph])
  | _ => (true, { r with filterGraph := true }, [.filterGraph])

/-- Result of a run of Initialize: whether it succeeded, the final
pointer state, the resources acquired during the call (in order), and
the resources released during the call (in order). -/
structure InitResult where
  ok : Bool
  res : Res
  allocs : List RName
  frees : List RName
deriving DecidableEq, Repr

/-- Initialize (encoder.go 61-85), driven by an optional failure point.
On openInput failure it returns the error directly (lines 65-67, no
cleanup); on openOutput failure it calls Close and then returns (lines
69-72); then it allocates decFrame, filteredFrame and encPkt (lines
75-77, unchecked); on initFilter failure it returns the error directly
(lines 80-82, no cleanup). -/
def Initialize (fail : Option InitStep) (nofile : Bool) (r0 : Res) : InitResult :=
  let (ok1, r1, a1) := openInputSim fail r0
  if !ok1 then { ok := false, res := r1, allocs := a1, frees := [] }
  else
    let (ok2, r2, a2) := openOutputSim nofile fail r1
    if !ok2 then
      let (r2c, fs) := Close nofile r2
      { ok := false, res := r2c, allocs := a1 ++ a2, frees := fs }
    else
      let r3 := { r2 with decFrame := true, filteredFrame := true, encPkt := true }
      let a3 := [RName.decFrame, RName.filteredFrame, RName.encPkt]
      let (ok4, r4, a4) := initFilterSim fail r3
      if !ok4 then
        { ok := false, res := r4, allocs := a1 ++ a2 ++ a3 ++ a4, frees := [] }
      else
        { ok := true, res := r4, allocs := a1 ++ a2 ++ a3 ++ a4, frees := [] }

/-- Resources acquired during a call but not released by it. -/
def unreleased (allocs frees : List RName) : List RName :=
  allocs.filter fun n => !(frees.contains n)

/-- Failure points inside openOutput, the only ones whose error path in
Initialize runs Close before returning. -/
def isOutFail : InitStep → Bool
  | .outAlloc | .outEnc | .outCodec | .outAvio | .outHeader => true
  | _ => false

/-! ## Encode (encoder.go, lines 351-551)

The encode loop is embedded as a trace-producing function. ffmpeg
stages live outside this repository, so their data behaviour is a
parameter: a packet read from the source carries its stream index and
the sample counts of the frames the decoder yields for it; the filter
graph and the encoder are arbitrary deterministic state machines whose
receive loops (drain until EAGAIN) are folded into one call returning
the list of produced items. The control flow of Encode, encodeFrame and
flushEncoder is translated call for call. -/

/-- Event trace of one run of Encode. decFrame records a frame received
from the decoder, progress an invocation of the progress callback,
submit a frame stamped with its pts and sent to the encoder, write a
packet written to the sink, and the four markers record the decoder
flush, the filter-graph flush, the encoder flush and the trailer
write. -/
inductive Ev where
  | decFrame (n : Nat)
  | progress (decoded : Nat) (total : Int)
  | submit (pts n : Nat)
  | write (p : Nat)
  | flushDec
  | flushFilt
  | flushEnc
  | trailer
deriving DecidableEq, Repr

/-- Packet returned by AVReadFrame: its stream index and the sample
counts of the frames AVCodecSendPacket / AVCodecReceiveFrame turn it
into. -/
structure SrcPacket where
  stream : Int
  frames : List Nat
deriving DecidableEq, Repr

/-- Abstract behaviour of the two buffering stages downstream of the
decoder. filtPush is AVBuffersrcAddFrameFlags followed by the
AVBuffersinkGetFrame drain loop; filtFlush is the drain after the null
push; encPush is AVCodecSendFrame followed by the AVCodecReceivePacket
drain loop; encFlush is the drain after the null send. -/
structure Stages (φ ε : Type) where
  filtPush : φ → Nat → φ × List Nat
  filtFlush : φ → List Nat
  encPush : ε → Nat → ε × List Nat
  encFlush : ε → List Nat

/-- Mutable fields of the Encoder that Encode drives: the two stage
states, nextPts and samplesRead (encoder.go 31-33, both starting at 0
for a single-use instance). -/
structure EncSt (φ ε : Type) where
  filt : φ
  enc : ε
  nextPts : Nat
  samplesRead : Nat

/-- encodeFrame (encoder.go 490-524): stamp the frame with nextPts,
advance nextPts by the sample count of the frame, send the frame to the
encoder and write every packet the encoder returns. -/
def encodeFrame (D : Stages φ ε) (s : EncSt φ ε) (n : Nat) : EncSt φ ε × List Ev :=
  let pr := D.encPush s.enc n
  ({ s with enc := pr.1, nextPts := s.nextPts + n },
   Ev.submit s.nextPts n :: pr.2.map Ev.write)

/-- Encoding of a list of filtered frames, one encodeFrame call each
(the AVBuffersinkGetFrame drain loops at encoder.go 400-413, 438-451
and 461-474). -/
def encodeFrames (D : Stages φ ε) (s : EncSt φ ε) : List Nat → EncSt φ ε × List Ev
  | [] => (s, [])
  | n :: ns =>
      let p1 := encodeFrame D s n
      let p2 := encodeFrames D p1.1 ns
      (p2.1, p1.2 ++ p2.2)

/-- Handling of one frame received from the decoder in the main loop
(encoder.go 380-416): add its sample count to samplesRead, invoke the
progress callback when one is set and totalSamples is positive, push
the frame into the filter graph and encode every filtered frame. -/
def mainFrame (D : Stages φ ε) (cb : Bool) (total : Int) (s : EncSt φ ε) (n : Nat) :
    EncSt φ ε × List Ev :=
  let sr := s.samplesRead + n
  let progEvs := if cb && decide (0 < total) then [Ev.progress sr total] else []
  let pf := D.filtPush s.filt n
  let pe := encodeFrames D { s with samplesRead := sr, filt := pf.1 } pf.2
  (pe.1, Ev.decFrame n :: (progEvs ++ pe.2))

/-- The receive loop over the decoded frames of one packet. -/
def mainFrames (D : Stages φ ε) (cb : Bool) (total : Int) (s : EncSt φ ε) :
    List Nat → EncSt φ ε × List Ev
  | [] => (s, [])
  | n :: ns =>
      let p1 := mainFrame D cb total s n
      let p2 := mainFrames D cb total p1.1 ns
      (p2.1, p1.2 ++ p2.2)

/-- Main decoding loop of Encode (encoder.go 358-417): read packets
until end of stream, skip packets of other streams (line 366), decode
and process the rest. -/
def mainLoop (D : Stages φ ε) (cb : Bool) (total : Int) (idx : Int) (s : EncSt φ ε) :
    List SrcPacket → EncSt φ ε × List Ev
  | [] => (s, [])
  | p :: ps =>
      if p.stream = idx then
        let p1 := mainFrames D cb total s p.frames
        let p2 := mainLoop D cb total idx p1.1 ps
        (p2.1, p1.2 ++ p2.2)
      else
        mainLoop D cb total idx s ps

/-- Handling of one frame drained from the decoder after its flush
(encoder.go 424-454): the frame is pushed through the filter graph and
encoded, but samplesRead is not advanced and the progress callback is
not invoked. -/
def flushFrame (D : Stages φ ε) (s : EncSt φ ε) (n : Nat) : EncSt φ ε × List Ev :=
  let pf := D.filtPush s.filt n
  let pe := encodeFrames D { s with filt := pf.1 } pf.2
  (pe.1, Ev.decFrame n :: pe.2)

/-- Drain loop over the frames the decoder yields after its flush. -/
def flushFrames (D : Stages φ ε) (s : EncSt φ ε) : List Nat → EncSt φ ε × List Ev
  | [] => (s, [])
  | n :: ns =>
      let p1 := flushFrame D s n
      let p2 := flushFrames D p1.1 ns
      (p2.1, p1.2 ++ p2.2)

/-- Encode (encoder.go 351-487): the main loop, then in order the
decoder flush with its drain, the filter-graph flush with its drain,
the encoder flush (flushEncoder, encoder.go 527-551) with its packet
writes, and finally the trailer write. decTail lists the frames the
decoder yields when drained after its flush; cb tells whether a
progress callback was passed; total is e.totalSamples. -/
def Encode (D : Stages φ ε) (idx : Int) (input : List SrcPacket) (decTail : List Nat)
    (cb : Bool) (total : Int) (f0 : φ) (e0 : ε) : List Ev :=
  let s0 : EncSt φ ε := { filt := f0, enc := e0, nextPts := 0, samplesRead := 0 }
  let p1 := mainLoop D cb total idx s0 input
  let p2 := flushFrames D p1.1 decTail
  let p3 := encodeFrames D p2.1 (D.filtFlush p2.1.filt)
  let pks := D.encFlush p3.1.enc
  p1.2 ++ Ev.flushDec :: (p2.2 ++ Ev.flushFilt :: (p3.2 ++ Ev.flushEnc ::
    (pks.map Ev.write ++ [Ev.trailer])))

/-- Decoded frames of the packets belonging to the selected stream, in
order. -/
def streamFrames (idx : Int) (input : List SrcPacket) : List Nat :=
  (input.filter fun p => decide (p.stream = idx)).flatMap fun p => p.frames

/-- Running sums of a list of sample counts starting from s0: the value
samplesRead has just after each frame. -/
def scanSums (s0 : Nat) : List Nat → List Nat
  | [] => []
  | n :: ns => (s0 + n) :: scanSums (s0 + n) ns

/-- Pts stamping discipline of encodeFrame: each frame is paired with
the running sum of the sample counts of the frames before it. -/
def stampPts (p : Nat) : List Nat → List (Nat × Nat)
  | [] => []
  | n :: ns => (p, n) :: stampPts (p + n) ns

/-- Progress pairs of a trace, in order. -/
def progressPairs (t : List Ev) : List (Nat × Int) :=
  t.filterMap fun e => match e with
    | .progress d tot => some (d, tot)
    | _ => none

/-- Stamped frames submitted to the encoder, in order. -/
def submits (t : List Ev) : List (Nat × Nat) :=
  t.filterMap fun e => match e with
    | .submit pts n => some (pts, n)
    | _ => none

/-- Marker events: the three flushes and the trailer. -/
def Ev.isMarker : Ev → Bool
  | .flushDec | .flushFilt | .flushEnc | .trailer => true
  | _ => false

/-- Write events. -/
def Ev.isWrite : Ev → Bool
  | .write _ => true
  | _ => false

/-- Events an encodeFrame call can produce: submits and writes. -/
def Ev.isSubmitOrWrite : Ev → Bool
  | .submit _ _ | .write _ => true
  | _ => false

/-- Progress events. -/
def Ev.isProgress : Ev → Bool
  | .progress _ _ => true
  | _ => false

/-- Number of frames received from the decoder in a trace (main loop
and decoder-flush drain together). -/
def decFrameCount (t : List Ev) : Nat :=
  t.countP fun e => match e with
    | .decFrame _ => true
    | _ => false

/-- Concrete stage behaviour used for witnesses: the filter forwards
each frame unchanged and holds nothing back, the encoder emits one
packet per frame and holds nothing back. -/
def idStages : Stages Unit Unit :=
  { filtPush := fun _ n => ((), [n]),
    filtFlush := fun _ => [],
    encPush := fun _ n => ((), [n]),
    encFlush := fun _ => [] }

/-- Total-sample estimate of openInput (encoder.go 134-140): totalSamples
is left at its zero value unless the stream duration is positive, in
which case it is set to the duration converted through the stream time
base times the decoder sample rate. That arithmetic runs in float64 in
the source; its value is abstracted here as the argument compute, since
no claim depends on it. -/
def totalSamplesOf (duration : Int) (compute : Int) : Int :=
  if 0 < duration then compute else 0

/-- Stamping invariant of a submit trace: the trace consists of some
frame list stamped from pts p, and the final nextPts is p plus the
total sample count of those frames. -/
def Stamped (p q : Nat) (l : List (Nat × Nat)) : Prop :=
  ∃ ns, l = stampPts p ns ∧ q = p + ns.sum

/-! ## Theorems -/

theorem charLit_a : 'a'.toNat = 97 := rfl

theorem charLit_z : 'z'.toNat = 122 := rfl

theorem charLit_zero : '0'.toNat = 48 := rfl

theorem charLit_nine : '9'.toNat = 57 := rfl

theorem charLit_A : 'A'.toNat = 65 := rfl

theorem charLit_Z : 'Z'.toNat = 90 := rfl

theorem charLit_hyph : '-'.toNat = 45 := rfl

theorem charLit_us : '_'.toNat = 95 := rfl

theorem charLit_dot : '.'.toNat = 46 := rfl

theorem allowed_toLower {c : Char} (h : allowedChar c = true) : toLowerChar c = c := by
  simp only [allowedChar, Bool.or_eq_true, Bool.and_eq_true, decide_eq_true_eq,
    charLit_a, charLit_z, charLit_zero, charLit_nine, charLit_hyph, charLit_us,
    charLit_dot] at h
  unfold toLowerChar
  rw [if_neg]
  simp only [charLit_A, charLit_Z, not_and, not_le]
  omega

theorem allowed_despace {c : Char} (h : allowedChar c = true) :
    (if c = ' ' then '-' else c) = c := by
  rw [if_neg]
  intro hc
  subst hc
  simp [allowedChar] at h

theorem sanitise_fixed_of_allowed :
    ∀ l : List Char, (∀ c ∈ l, allowedChar c = true) →
      ((l.map fun c => if c = ' ' then '-' else c).map toLowerChar).filter allowedChar = l := by
  intro l
  induction l with
  | nil => intro _; rfl
  | cons c l ih =>
      intro h
      have hc := h c (List.mem_cons_self c l)
      have hl := fun d hd => h d (List.mem_cons_of_mem c hd)
      simp only [List.map_cons, allowed_despace hc, allowed_toLower hc, List.filter_cons,
        hc, ih hl, if_true]

/-- C10: sanitiseForFilename is idempotent: applying it twice gives the
same result as applying it once, because its output consists only of
lowercase letters, digits, hyphens, underscores and dots, which every
stage of the function leaves unchanged. -/
theorem sanitiseForFilename_idempotent :
    ∀ s : String, sanitiseForFilename (sanitiseForFilename s) = sanitiseForFilename s := by
  intro s
  show String.mk _ = String.mk _
  apply congrArg String.mk
  apply sanitise_fixed_of_allowed
  intro c hc
  exact List.of_mem_filter hc

/-- C4 counterexample: with the channel full (ten pending updates), the
code path taken is the select default branch, which leaves the channel
unchanged: the new update is discarded and the oldest-pending update is
still at the head, refuting the stated drop-oldest policy. -/
theorem trySendProgress_full_drops_new :
    trySendProgress ((List.range 10).map fun i => ⟨i, 100⟩) ⟨10, 100⟩
        = (List.range 10).map (fun i => ⟨i, 100⟩) ∧
    (⟨10, 100⟩ : ProgressUpdate) ∉
      trySendProgress ((List.range 10).map fun i => ⟨i, 100⟩) ⟨10, 100⟩ ∧
    trySendProgress ((List.range 10).map fun i => ⟨i, 100⟩) ⟨10, 100⟩
        ≠ ((List.range 10).map fun i => (⟨i, 100⟩ : ProgressUpdate)).tail ++ [⟨10, 100⟩] := by
  refine ⟨by decide, by decide, by decide⟩

/-- C4 amended: when the progress callback fires while the bounded
channel is full, the new update is dropped and the channel (including
its oldest-pending update) is left unchanged; when the channel has
room, the update is appended; the send returns in both cases without
waiting, so the capacity bound is preserved and delivery is
best-effort. -/
theorem trySendProgress_policy :
    ∀ (ch : List ProgressUpdate) (u : ProgressUpdate),
      (progressChanCap ≤ ch.length → trySendProgress ch u = ch) ∧
      (ch.length < progressChanCap → trySendProgress ch u = ch ++ [u]) ∧
      (progressChanCap ≤ ch.length → (trySendProgress ch u).head? = ch.head?) ∧
      (ch.length ≤ progressChanCap → (trySendProgress ch u).length ≤ progressChanCap) := by
  intro ch u
  refine ⟨fun h => ?_, fun h => ?_, fun h => ?_, fun h => ?_⟩
  · rw [trySendProgress, if_neg (by omega)]
  · rw [trySendProgress, if_pos h]
  · rw [trySendProgress, if_neg (by omega)]
  · by_cases hlt : ch.length < progressChanCap
    · rw [trySendProgress, if_pos hlt]
      simp only [List.length_append, List.length_cons, List.length_nil]
      omega
    · rw [trySendProgress, if_neg hlt]
      omega

/-- C4 witness: the policy applied to a concrete full channel and to the
empty channel. -/
theorem trySendProgress_policy_witness :
    trySendProgress ((List.range 10).map fun i => ⟨i, 0⟩) ⟨99, 0⟩
        = (List.range 10).map (fun i => ⟨i, 0⟩) ∧
    trySendProgress [] ⟨99, 0⟩ = [⟨99, 0⟩] ∧
    (trySendProgress ((List.range 10).map fun i => ⟨i, 0⟩) ⟨99, 0⟩).head?
        = ((List.range 10).map fun i => (⟨i, 0⟩ : ProgressUpdate)).head? ∧
    (trySendProgress ((List.range 10).map fun i => ⟨i, 0⟩) ⟨99, 0⟩).length ≤ progressChanCap :=
  ⟨(trySendProgress_policy _ _).1 (by decide),
   (trySendProgress_policy _ _).2.1 (by decide),
   (trySendProgress_policy _ _).2.2.1 (by decide),
   (trySendProgress_policy _ _).2.2.2 (by decide)⟩

/-- C6: the stereo flag selects exactly one of two presets, 192000 bps
with 2 channels or 112000 bps with 1 channel; both presets use output
sample rate 44100, LAME compression level 3 and lowpass cutoff 20500. -/
theorem openOutput_presets :
    (openOutputSettings true).bitRate = 192000 ∧
    (openOutputSettings true).channels = 2 ∧
    (openOutputSettings false).bitRate = 112000 ∧
    (openOutputSettings false).channels = 1 ∧
    (openOutputSettings true).sampleRate = 44100 ∧
    (openOutputSettings false).sampleRate = 44100 ∧
    (openOutputSettings true).opts.lookup "compression_level" = some "3" ∧
    (openOutputSettings false).opts.lookup "compression_level" = some "3" ∧
    (openOutputSettings true).opts.lookup "cutoff" = some "20500" ∧
    (openOutputSettings false).opts.lookup "cutoff" = some "20500" := by
  refine ⟨rfl, rfl, rfl, rfl, rfl, rfl, rfl, rfl, rfl, rfl⟩

/-- C9: New rejects an empty input path, then an empty output path, with
a configuration error; when it succeeds both paths were non-empty, and
the returned Encoder is a pure value holding no native resource and
streamIndex -1, so nothing was opened and no file was created. -/
theorem New_validates_paths :
    ∀ (i o : String) (st : Bool),
      New { inputPath := "", outputPath := o, stereo := st }
          = .error "input path is required" ∧
      (i ≠ "" → New { inputPath := i, outputPath := "", stereo := st }
          = .error "output path is required") ∧
      (∀ e, New { inputPath := i, outputPath := o, stereo := st } = .ok e →
        i ≠ "" ∧ o ≠ "" ∧ e.res = Res.fresh ∧ e.streamIndex = -1) := by
  intro i o st
  refine ⟨rfl, fun h => ?_, fun e he => ?_⟩
  · rw [New, if_neg h, if_pos rfl]
  · rw [New] at he
    by_cases hi : i = ""
    · rw [if_pos hi] at he
      exact absurd he (by simp)
    · rw [if_neg hi] at he
      by_cases ho : o = ""
      · rw [if_pos ho] at he
        exact absurd he (by simp)
      · rw [if_neg ho] at he
        refine ⟨hi, ho, ?_, ?_⟩
        · injection he with he1
          rw [← he1]
        · injection he with he1
          rw [← he1]

/-- C9 witness: the validation applied to concrete configurations. -/
theorem New_validates_paths_witness :
    New { inputPath := "", outputPath := "out.mp3", stereo := true }
        = .error "input path is required" ∧
    New { inputPath := "in.flac", outputPath := "", stereo := true }
        = .error "output path is required" ∧
    (("in.flac" : String) ≠ "" ∧ ("out.mp3" : String) ≠ "" ∧
      (Encoder.mk "in.flac" "out.mp3" true (-1) Res.fresh).res = Res.fresh ∧
      (Encoder.mk "in.flac" "out.mp3" true (-1) Res.fresh).streamIndex = -1) :=
  ⟨(New_validates_paths "in.flac" "out.mp3" true).1,
   (New_validates_paths "in.flac" "out.mp3" true).2.1 (by decide),
   (New_validates_paths "in.flac" "out.mp3" true).2.2
     (Encoder.mk "in.flac" "out.mp3" true (-1) Res.fresh) (by rfl)⟩

/-- C3: the code contradicts the claimed idempotence. After a first
Close on a fully initialized Encoder (mp3 output, so the format is
file-based), ofmtCtx is still non-nil because Close never resets that
field (AVFormatFreeContext receives it by value); a second Close passes
the guard and frees the already-freed output format context again. -/
theorem Close_second_call_refrees_ofmtCtx :
    ((Close false { ifmtCtx := true, ofmtCtx := true, decCtx := true, encCtx := true,
                    decFrame := true, encPkt := true, filterGraph := true,
                    filteredFrame := true, pb := true }).2).count RName.ofmtCtx = 1 ∧
    (Close false { ifmtCtx := true, ofmtCtx := true, decCtx := true, encCtx := true,
                   decFrame := true, encPkt := true, filterGraph := true,
                   filteredFrame := true, pb := true }).1.ofmtCtx = true ∧
    (Close false ((Close false { ifmtCtx := true, ofmtCtx := true, decCtx := true,
                                 encCtx := true, decFrame := true, encPkt := true,
                                 filterGraph := true, filteredFrame := true,
                                 pb := true }).1)).2 = [RName.ofmtCtx] := by
  refine ⟨by decide, by decide, by decide⟩

/-- C5 counterexample: when Initialize fails while building the filter
graph, it returns the error having released nothing, and the input
format context (among others) acquired earlier in the same call is
still held. -/
theorem Initialize_filterFailure_releases_nothing :
    (Initialize (some .filterBuild) false Res.fresh).ok = false ∧
    (Initialize (some .filterBuild) false Res.fresh).frees = [] ∧
    RName.ifmtCtx ∈ unreleased (Initialize (some .filterBuild) false Res.fresh).allocs
        (Initialize (some .filterBuild) false Res.fresh).frees := by
  refine ⟨by decide, by decide, by decide⟩

/-- C5 amended: every injected failure makes Initialize return an error;
only the openOutput failure path releases the resources acquired during
the call before returning (it runs Close), every other failure path
returns with all acquired resources still unreleased; in every case one
subsequent Close releases everything that is still held. -/
theorem Initialize_failure_release_policy :
    ∀ f : InitStep,
      (Initialize (some f) false Res.fresh).ok = false ∧
      unreleased (Initialize (some f) false Res.fresh).allocs
          (Initialize (some f) false Res.fresh).frees
        = (if isOutFail f then []
           else (Initialize (some f) false Res.fresh).allocs) ∧
      unreleased (Initialize (some f) false Res.fresh).allocs
          ((Initialize (some f) false Res.fresh).frees ++
            (Close false (Initialize (some f) false Res.fresh).res).2) = [] := by
  decide

theorem isSubmitOrWrite_not_marker {e : Ev} (h : e.isSubmitOrWrite = true) :
    e.isMarker = false := by
  cases e <;> simp_all [Ev.isSubmitOrWrite, Ev.isMarker]

theorem isSubmitOrWrite_not_progress {e : Ev} (h : e.isSubmitOrWrite = true) :
    e.isProgress = false := by
  cases e <;> simp_all [Ev.isSubmitOrWrite, Ev.isProgress]

theorem encodeFrame_events {φ ε : Type} (D : Stages φ ε) (s : EncSt φ ε) (n : Nat) :
    ∀ e ∈ (encodeFrame D s n).2, e.isSubmitOrWrite = true := by
  intro e he
  rcases List.mem_cons.mp he with h | h
  · subst h; rfl
  · rcases List.mem_map.mp h with ⟨p, _, rfl⟩; rfl

theorem encodeFrames_events {φ ε : Type} (D : Stages φ ε) :
    ∀ (ns : List Nat) (s : EncSt φ ε), ∀ e ∈ (encodeFrames D s ns).2, e.isSubmitOrWrite = true := by
  intro ns
  induction ns with
  | nil => intro s e he; simp [encodeFrames] at he
  | cons n ns ih =>
      intro s e he
      rcases List.mem_append.mp he with h | h
      · exact encodeFrame_events D s n e h
      · exact ih _ e h

theorem encodeFrame_samplesRead {φ ε : Type} (D : Stages φ ε) (s : EncSt φ ε) (n : Nat) :
    (encodeFrame D s n).1.samplesRead = s.samplesRead := rfl

theorem encodeFrames_samplesRead {φ ε : Type} (D : Stages φ ε) :
    ∀ (ns : List Nat) (s : EncSt φ ε), (encodeFrames D s ns).1.samplesRead = s.samplesRead := by
  intro ns
  induction ns with
  | nil => intro s; rfl
  | cons n ns ih => intro s; exact ih (encodeFrame D s n).1

theorem encodeFrame_nextPts {φ ε : Type} (D : Stages φ ε) (s : EncSt φ ε) (n : Nat) :
    (encodeFrame D s n).1.nextPts = s.nextPts + n := rfl

theorem encodeFrames_nextPts {φ ε : Type} (D : Stages φ ε) :
    ∀ (ns : List Nat) (s : EncSt φ ε), (encodeFrames D s ns).1.nextPts = s.nextPts + ns.sum := by
  intro ns
  induction ns with
  | nil => intro s; simp [encodeFrames]
  | cons n ns ih =>
      intro s
      have := ih (encodeFrame D s n).1
      simp only [encodeFrames]
      rw [this, encodeFrame_nextPts]
      simp [Nat.add_assoc]

theorem submits_append (a b : List Ev) : submits (a ++ b) = submits a ++ submits b := by
  simp [submits, List.filterMap_append]

theorem submits_map_write (l : List Nat) : submits (l.map Ev.write) = [] := by
  induction l with
  | nil => rfl
  | cons p l ih => simp [submits, List.filterMap_cons, ih]

theorem submits_cons_decFrame (n : Nat) (t : List Ev) :
    submits (Ev.decFrame n :: t) = submits t := by
  simp [submits, List.filterMap_cons]

theorem submits_progress_block (c : Bool) (d : Nat) (tot : Int) (t : List Ev) :
    submits ((if c then [Ev.progress d tot] else []) ++ t) = submits t := by
  cases c <;> simp [submits, List.filterMap_cons]

theorem submits_cons_flushDec (t : List Ev) : submits (Ev.flushDec :: t) = submits t := by
  simp [submits, List.filterMap_cons]

theorem submits_cons_flushFilt (t : List Ev) : submits (Ev.flushFilt :: t) = submits t := by
  simp [submits, List.filterMap_cons]

theorem submits_cons_flushEnc (t : List Ev) : submits (Ev.flushEnc :: t) = submits t := by
  simp [submits, List.filterMap_cons]

theorem submits_trailer : submits [Ev.trailer] = [] := rfl

theorem submits_encodeFrame {φ ε : Type} (D : Stages φ ε) (s : EncSt φ ε) (n : Nat) :
    submits (encodeFrame D s n).2 = [(s.nextPts, n)] := by
  simp [encodeFrame, submits, List.filterMap_cons, submits_map_write]

theorem submits_encodeFrames {φ ε : Type} (D : Stages φ ε) :
    ∀ (ns : List Nat) (s : EncSt φ ε),
      submits (encodeFrames D s ns).2 = stampPts s.nextPts ns := by
  intro ns
  induction ns with
  | nil => intro s; rfl
  | cons n ns ih =>
      intro s
      simp only [encodeFrames]
      rw [submits_append, submits_encodeFrame, ih, encodeFrame_nextPts, stampPts]
      rfl

theorem stampPts_append :
    ∀ (as : List Nat) (p : Nat) (bs : List Nat),
      stampPts p (as ++ bs) = stampPts p as ++ stampPts (p + as.sum) bs
  | [], p, bs => by simp [stampPts]
  | a :: as, p, bs => by
      have ih := stampPts_append as (p + a) bs
      show (p, a) :: stampPts (p + a) (as ++ bs)
          = ((p, a) :: stampPts (p + a) as) ++ stampPts (p + (a :: as).sum) bs
      rw [List.cons_append, ih, List.sum_cons, Nat.add_assoc]

theorem Stamped.append {p q r : Nat} {l1 l2 : List (Nat × Nat)}
    (h1 : Stamped p q l1) (h2 : Stamped q r l2) : Stamped p r (l1 ++ l2) := by
  obtain ⟨ns, rfl, rfl⟩ := h1
  obtain ⟨ms, rfl, rfl⟩ := h2
  refine ⟨ns ++ ms, ?_, ?_⟩
  · rw [stampPts_append]
  · rw [List.sum_append, Nat.add_assoc]

theorem Stamped.nil {p : Nat} : Stamped p p ([] : List (Nat × Nat)) :=
  ⟨[], rfl, by simp⟩

theorem stamped_encodeFrames {φ ε : Type} (D : Stages φ ε) (ns : List Nat) (s : EncSt φ ε) :
    Stamped s.nextPts (encodeFrames D s ns).1.nextPts (submits (encodeFrames D s ns).2) :=
  ⟨ns, submits_encodeFrames D ns s, encodeFrames_nextPts D ns s⟩

theorem stamped_mainFrame {φ ε : Type} (D : Stages φ ε) (cb : Bool) (total : Int)
    (s : EncSt φ ε) (n : Nat) :
    Stamped s.nextPts (mainFrame D cb total s n).1.nextPts
      (submits (mainFrame D cb total s n).2) := by
  have h := stamped_encodeFrames D (D.filtPush s.filt n).2
    { s with samplesRead := s.samplesRead + n, filt := (D.filtPush s.filt n).1 }
  simp only [mainFrame]
  rw [submits_cons_decFrame, submits_progress_block]
  exact h

theorem stamped_mainFrames {φ ε : Type} (D : Stages φ ε) (cb : Bool) (total : Int) :
    ∀ (ns : List Nat) (s : EncSt φ ε),
      Stamped s.nextPts (mainFrames D cb total s ns).1.nextPts
        (submits (mainFrames D cb total s ns).2) := by
  intro ns
  induction ns with
  | nil => intro s; exact ⟨[], rfl, by simp [mainFrames]⟩
  | cons n ns ih =>
      intro s
      simp only [mainFrames]
      rw [submits_append]
      exact (stamped_mainFrame D cb total s n).append (ih _)

theorem stamped_mainLoop {φ ε : Type} (D : Stages φ ε) (cb : Bool) (total : Int) (idx : Int) :
    ∀ (ps : List SrcPacket) (s : EncSt φ ε),
      Stamped s.nextPts (mainLoop D cb total idx s ps).1.nextPts
        (submits (mainLoop D cb total idx s ps).2) := by
  intro ps
  induction ps with
  | nil => intro s; exact ⟨[], rfl, by simp [mainLoop]⟩
  | cons p ps ih =>
      intro s
      by_cases hp : p.stream = idx
      · simp only [mainLoop, if_pos hp]
        rw [submits_append]
        exact (stamped_mainFrames D cb total p.frames s).append (ih _)
      · simp only [mainLoop, if_neg hp]
        exact ih s

theorem stamped_flushFrame {φ ε : Type} (D : Stages φ ε) (s : EncSt φ ε) (n : Nat) :
    Stamped s.nextPts (flushFrame D s n).1.nextPts (submits (flushFrame D s n).2) := by
  have h := stamped_encodeFrames D (D.filtPush s.filt n).2 { s with filt := (D.filtPush s.filt n).1 }
  simp only [flushFrame]
  rw [submits_cons_decFrame]
  exact h

theorem stamped_flushFrames {φ ε : Type} (D : Stages φ ε) :
    ∀ (ns : List Nat) (s : EncSt φ ε),
      Stamped s.nextPts (flushFrames D s ns).1.nextPts
        (submits (flushFrames D s ns).2) := by
  intro ns
  induction ns with
  | nil => intro s; exact ⟨[], rfl, by simp [flushFrames]⟩
  | cons n ns ih =>
      intro s
      simp only [flushFrames]
      rw [submits_append]
      exact (stamped_flushFrame D s n).append (ih _)

theorem stamped_Encode {φ ε : Type} (D : Stages φ ε) (idx : Int) (input : List SrcPacket)
    (decTail : List Nat) (cb : Bool) (total : Int) (f0 : φ) (e0 : ε) :
    ∃ q, Stamped 0 q (submits (Encode D idx input decTail cb total f0 e0)) := by
  simp only [Encode]
  rw [submits_append, submits_cons_flushDec, submits_append, submits_cons_flushFilt,
    submits_append, submits_cons_flushEnc, submits_append, submits_map_write,
    List.nil_append, submits_trailer, List.append_nil]
  exact ⟨_, (stamped_mainLoop D cb total idx input _).append
    ((stamped_flushFrames D decTail _).append (stamped_encodeFrames D _ _))⟩

theorem stampPts_map_snd : ∀ (ns : List Nat) (p : Nat), (stampPts p ns).map Prod.snd = ns
  | [], _ => rfl
  | n :: ns, p => by
      show n :: (stampPts (p + n) ns).map Prod.snd = n :: ns
      rw [stampPts_map_snd ns (p + n)]

theorem stampPts_get_fst :
    ∀ (ns : List Nat) (p i : Nat) (h : i < (stampPts p ns).length),
      ((stampPts p ns).get ⟨i, h⟩).1 = p + (ns.take i).sum
  | [], p, i, h => by simp [stampPts] at h
  | n :: ns, p, 0, h => by simp [stampPts]
  | n :: ns, p, i + 1, h => by
      have ih := stampPts_get_fst ns (p + n) i (by simpa [stampPts] using h)
      show ((stampPts (p + n) ns).get ⟨i, _⟩).1 = p + ((n :: ns).take (i + 1)).sum
      rw [ih, List.take_succ_cons, List.sum_cons, Nat.add_assoc]

theorem stampPts_chain_gap :
    ∀ (ns : List Nat) (p : Nat),
      List.Chain' (fun a b : Nat × Nat => b.1 = a.1 + a.2) (stampPts p ns)
  | [], _ => List.chain'_nil
  | [n], p => by simp [stampPts]
  | n :: m :: ns, p => by
      rw [stampPts, stampPts, List.chain'_cons]
      exact ⟨rfl, by rw [← stampPts]; exact stampPts_chain_gap (m :: ns) (p + n)⟩

theorem stampPts_chain_lt :
    ∀ (ns : List Nat) (p : Nat), (∀ q ∈ stampPts p ns, 0 < q.2) →
      List.Chain' (fun a b : Nat × Nat => a.1 < b.1) (stampPts p ns)
  | [], _, _ => List.chain'_nil
  | [n], p, _ => by simp [stampPts]
  | n :: m :: ns, p, hpos => by
      rw [stampPts, stampPts, List.chain'_cons]
      constructor
      · have hn : 0 < n := hpos (p, n) (by rw [stampPts]; exact List.mem_cons_self _ _)
        show p < p + n
        omega
      · rw [← stampPts]
        refine stampPts_chain_lt (m :: ns) (p + n) fun q hq => hpos q ?_
        rw [stampPts]
        exact List.mem_cons_of_mem _ hq

/-- C1: every frame submitted to the encoder in one run of Encode is
stamped with a timestamp equal to the running sum (starting at 0) of
the sample counts of the previously submitted frames; consecutive
submitted frames therefore differ in timestamp by exactly the sample
count of the earlier frame, and when every submitted frame has a
positive sample count the timestamps are strictly increasing. -/
theorem Encode_pts_running_sum :
    ∀ (φ ε : Type) (D : Stages φ ε) (idx : Int) (input : List SrcPacket)
      (decTail : List Nat) (cb : Bool) (total : Int) (f0 : φ) (e0 : ε),
      (∀ i (h : i < (submits (Encode D idx input decTail cb total f0 e0)).length),
        ((submits (Encode D idx input decTail cb total f0 e0)).get ⟨i, h⟩).1
          = (((submits (Encode D idx input decTail cb total f0 e0)).take i).map Prod.snd).sum) ∧
      List.Chain' (fun a b => b.1 = a.1 + a.2)
        (submits (Encode D idx input decTail cb total f0 e0)) ∧
      ((∀ q ∈ submits (Encode D idx input decTail cb total f0 e0), 0 < q.2) →
        List.Chain' (fun a b => a.1 < b.1)
          (submits (Encode D idx input decTail cb total f0 e0))) := by
  intro φ ε D idx input decTail cb total f0 e0
  obtain ⟨q, ns, hEq, -⟩ := stamped_Encode D idx input decTail cb total f0 e0
  rw [hEq]
  refine ⟨fun i h => ?_, stampPts_chain_gap ns 0, fun hpos => stampPts_chain_lt ns 0 hpos⟩
  rw [stampPts_get_fst ns 0 i h, List.map_take, stampPts_map_snd]
  omega

/-- C1 witness: the stamping properties evaluated on a concrete run with
all-positive sample counts. -/
theorem Encode_pts_running_sum_witness :
    List.Chain' (fun a b => a.1 < b.1)
      (submits (Encode idStages 0 [⟨0, [100, 200]⟩, ⟨1, [999]⟩] [50] true 1000 () ())) :=
  (Encode_pts_running_sum Unit Unit idStages 0 [⟨0, [100, 200]⟩, ⟨1, [999]⟩]
    [50] true 1000 () ()).2.2 (by decide)

theorem mainFrame_no_marker {φ ε : Type} (D : Stages φ ε) (cb : Bool) (total : Int)
    (s : EncSt φ ε) (n : Nat) :
    ∀ e ∈ (mainFrame D cb total s n).2, e.isMarker = false := by
  intro e he
  rcases List.mem_cons.mp he with h | h
  · subst h; rfl
  · rcases List.mem_append.mp h with h2 | h2
    · by_cases hc : (cb && decide (0 < total)) = true
      · rw [if_pos hc, List.mem_singleton] at h2
        subst h2
        rfl
      · rw [if_neg hc] at h2
        exact absurd h2 (List.not_mem_nil e)
    · exact isSubmitOrWrite_not_marker (encodeFrames_events D _ _ e h2)

theorem mainFrames_no_marker {φ ε : Type} (D : Stages φ ε) (cb : Bool) (total : Int) :
    ∀ (ns : List Nat) (s : EncSt φ ε), ∀ e ∈ (mainFrames D cb total s ns).2, e.isMarker = false := by
  intro ns
  induction ns with
  | nil => intro s e he; simp [mainFrames] at he
  | cons n ns ih =>
      intro s e he
      rcases List.mem_append.mp he with h | h
      · exact mainFrame_no_marker D cb total s n e h
      · exact ih _ e h

theorem mainLoop_no_marker {φ ε : Type} (D : Stages φ ε) (cb : Bool) (total idx : Int) :
    ∀ (ps : List SrcPacket) (s : EncSt φ ε),
      ∀ e ∈ (mainLoop D cb total idx s ps).2, e.isMarker = false := by
  intro ps
  induction ps with
  | nil => intro s e he; simp [mainLoop] at he
  | cons p ps ih =>
      intro s e he
      by_cases hp : p.stream = idx
      · rw [mainLoop, if_pos hp] at he
        rcases List.mem_append.mp he with h | h
        · exact mainFrames_no_marker D cb total p.frames s e h
        · exact ih _ e h
      · rw [mainLoop, if_neg hp] at he
        exact ih s e he

theorem flushFrame_shape {φ ε : Type} (D : Stages φ ε) (s : EncSt φ ε) (n : Nat) :
    ∀ e ∈ (flushFrame D s n).2, e.isMarker = false ∧ e.isProgress = false := by
  intro e he
  rcases List.mem_cons.mp he with h | h
  · subst h; exact ⟨rfl, rfl⟩
  · have := encodeFrames_events D _ _ e h
    exact ⟨isSubmitOrWrite_not_marker this, isSubmitOrWrite_not_progress this⟩

theorem flushFrames_shape {φ ε : Type} (D : Stages φ ε) :
    ∀ (ns : List Nat) (s : EncSt φ ε),
      ∀ e ∈ (flushFrames D s ns).2, e.isMarker = false ∧ e.isProgress = false := by
  intro ns
  induction ns with
  | nil => intro s e he; simp [flushFrames] at he
  | cons n ns ih =>
      intro s e he
      rcases List.mem_append.mp he with h | h
      · exact flushFrame_shape D s n e h
      · exact ih _ e h

/-- C2: every run of Encode that reaches end of stream produces its
trace in the mandated order: a main-loop segment without flush events,
then the decoder flush followed by a drain segment that feeds the
reformatter and encoder (no flush, no progress events), then the
filter-graph flush followed by a drain of submits and writes only, then
the encoder flush followed by writes only, and the trailer write comes
last of all. -/
theorem Encode_flush_order :
    ∀ (φ ε : Type) (D : Stages φ ε) (idx : Int) (input : List SrcPacket)
      (decTail : List Nat) (cb : Bool) (total : Int) (f0 : φ) (e0 : ε),
      ∃ t1 t2 t3 t4,
        Encode D idx input decTail cb total f0 e0 =
          t1 ++ Ev.flushDec :: (t2 ++ Ev.flushFilt :: (t3 ++ Ev.flushEnc ::
            (t4 ++ [Ev.trailer]))) ∧
        t1.all (fun e => !e.isMarker) = true ∧
        t2.all (fun e => !e.isMarker && !e.isProgress) = true ∧
        t3.all (fun e => e.isSubmitOrWrite) = true ∧
        t4.all (fun e => e.isWrite) = true := by
  intro φ ε D idx input decTail cb total f0 e0
  refine ⟨(mainLoop D cb total idx { filt := f0, enc := e0, nextPts := 0, samplesRead := 0 } input).2,
    (flushFrames D (mainLoop D cb total idx
      { filt := f0, enc := e0, nextPts := 0, samplesRead := 0 } input).1 decTail).2,
    (encodeFrames D (flushFrames D (mainLoop D cb total idx
        { filt := f0, enc := e0, nextPts := 0, samplesRead := 0 } input).1 decTail).1
      (D.filtFlush (flushFrames D (mainLoop D cb total idx
        { filt := f0, enc := e0, nextPts := 0, samplesRead := 0 } input).1 decTail).1.filt)).2,
    ((D.encFlush (encodeFrames D (flushFrames D (mainLoop D cb total idx
        { filt := f0, enc := e0, nextPts := 0, samplesRead := 0 } input).1 decTail).1
      (D.filtFlush (flushFrames D (mainLoop D cb total idx
        { filt := f0, enc := e0, nextPts := 0, samplesRead := 0 } input).1
          decTail).1.filt)).1.enc).map Ev.write),
    rfl, ?_, ?_, ?_, ?_⟩
  · rw [List.all_eq_true]
    intro e he
    rw [Bool.not_eq_true']
    exact mainLoop_no_marker D cb total idx input _ e he
  · rw [List.all_eq_true]
    intro e he
    obtain ⟨h1, h2⟩ := flushFrames_shape D decTail _ e he
    rw [h1, h2]
    rfl
  · rw [List.all_eq_true]
    intro e he
    exact encodeFrames_events D _ _ e he
  · rw [List.all_eq_true]
    intro e he
    rcases List.mem_map.mp he with ⟨p, -, rfl⟩
    rfl

theorem progressPairs_append (a b : List Ev) :
    progressPairs (a ++ b) = progressPairs a ++ progressPairs b := by
  simp [progressPairs, List.filterMap_append]

theorem progressPairs_eq_nil_of_no_progress :
    ∀ t : List Ev, (∀ e ∈ t, e.isProgress = false) → progressPairs t = [] := by
  intro t
  induction t with
  | nil => intro _; rfl
  | cons e t ih =>
      intro h
      have he := h e (List.mem_cons_self e t)
      have ht := ih fun d hd => h d (List.mem_cons_of_mem e hd)
      cases e <;> simp_all [progressPairs, Ev.isProgress, List.filterMap_cons]

theorem progressPairs_encodeFrames {φ ε : Type} (D : Stages φ ε) (s : EncSt φ ε)
    (ns : List Nat) : progressPairs (encodeFrames D s ns).2 = [] :=
  progressPairs_eq_nil_of_no_progress _
    fun e he => isSubmitOrWrite_not_progress (encodeFrames_events D ns s e he)

theorem mainFrame_samplesRead {φ ε : Type} (D : Stages φ ε) (cb : Bool) (total : Int)
    (s : EncSt φ ε) (n : Nat) :
    (mainFrame D cb total s n).1.samplesRead = s.samplesRead + n := by
  simp only [mainFrame]
  rw [encodeFrames_samplesRead]

theorem progressPairs_mainFrame {φ ε : Type} (D : Stages φ ε) (cb : Bool) (total : Int)
    (s : EncSt φ ε) (n : Nat) :
    progressPairs (mainFrame D cb total s n).2 =
      if cb && decide (0 < total) then [(s.samplesRead + n, total)] else [] := by
  simp only [mainFrame]
  rw [show ∀ t : List Ev, progressPairs (Ev.decFrame n :: t) = progressPairs t from
    fun t => by simp [progressPairs, List.filterMap_cons]]
  rw [progressPairs_append, progressPairs_encodeFrames, List.append_nil]
  by_cases hc : (cb && decide (0 < total)) = true
  · rw [if_pos hc, if_pos hc]
    rfl
  · rw [if_neg hc, if_neg hc]
    rfl

theorem mainFrames_samplesRead {φ ε : Type} (D : Stages φ ε) (cb : Bool) (total : Int) :
    ∀ (ns : List Nat) (s : EncSt φ ε),
      (mainFrames D cb total s ns).1.samplesRead = s.samplesRead + ns.sum := by
  intro ns
  induction ns with
  | nil => intro s; simp [mainFrames]
  | cons n ns ih =>
      intro s
      simp only [mainFrames]
      rw [ih, mainFrame_samplesRead, List.sum_cons, Nat.add_assoc]

theorem progressPairs_mainFrames {φ ε : Type} (D : Stages φ ε) (cb : Bool) (total : Int) :
    ∀ (ns : List Nat) (s : EncSt φ ε),
      progressPairs (mainFrames D cb total s ns).2 =
        if cb && decide (0 < total) then
          (scanSums s.samplesRead ns).map (fun d => (d, total))
        else [] := by
  intro ns
  induction ns with
  | nil =>
      intro s
      simp [mainFrames, progressPairs, scanSums]
  | cons n ns ih =>
      intro s
      simp only [mainFrames]
      rw [progressPairs_append, progressPairs_mainFrame, ih, mainFrame_samplesRead]
      by_cases hc : (cb && decide (0 < total)) = true
      · rw [if_pos hc, if_pos hc, if_pos hc, scanSums]
        rfl
      · rw [if_neg hc, if_neg hc, if_neg hc]
        rfl

theorem scanSums_append :
    ∀ (as : List Nat) (s : Nat) (bs : List Nat),
      scanSums s (as ++ bs) = scanSums s as ++ scanSums (s + as.sum) bs
  | [], s, bs => by simp [scanSums]
  | a :: as, s, bs => by
      have ih := scanSums_append as (s + a) bs
      show (s + a) :: scanSums (s + a) (as ++ bs)
          = ((s + a) :: scanSums (s + a) as) ++ scanSums (s + (a :: as).sum) bs
      rw [List.cons_append, ih, List.sum_cons, Nat.add_assoc]

theorem streamFrames_cons (idx : Int) (p : SrcPacket) (ps : List SrcPacket) :
    streamFrames idx (p :: ps) =
      if p.stream = idx then p.frames ++ streamFrames idx ps else streamFrames idx ps := by
  by_cases hp : p.stream = idx
  · rw [if_pos hp]
    simp [streamFrames, List.filter_cons, hp]
  · rw [if_neg hp]
    simp [streamFrames, List.filter_cons, hp]

theorem mainLoop_samplesRead {φ ε : Type} (D : Stages φ ε) (cb : Bool) (total idx : Int) :
    ∀ (ps : List SrcPacket) (s : EncSt φ ε),
      (mainLoop D cb total idx s ps).1.samplesRead
        = s.samplesRead + (streamFrames idx ps).sum := by
  intro ps
  induction ps with
  | nil => intro s; simp [mainLoop, streamFrames]
  | cons p ps ih =>
      intro s
      rw [streamFrames_cons]
      by_cases hp : p.stream = idx
      · rw [if_pos hp, mainLoop, if_pos hp]
        rw [ih, mainFrames_samplesRead, List.sum_append, Nat.add_assoc]
      · rw [if_neg hp, mainLoop, if_neg hp]
        exact ih s

theorem progressPairs_mainLoop {φ ε : Type} (D : Stages φ ε) (cb : Bool) (total idx : Int) :
    ∀ (ps : List SrcPacket) (s : EncSt φ ε),
      progressPairs (mainLoop D cb total idx s ps).2 =
        if cb && decide (0 < total) then
          (scanSums s.samplesRead (streamFrames idx ps)).map (fun d => (d, total))
        else [] := by
  intro ps
  induction ps with
  | nil =>
      intro s
      simp [mainLoop, streamFrames, progressPairs, scanSums]
  | cons p ps ih =>
      intro s
      rw [streamFrames_cons]
      by_cases hp : p.stream = idx
      · rw [if_pos hp, mainLoop, if_pos hp]
        rw [progressPairs_append, progressPairs_mainFrames, ih, mainFrames_samplesRead,
          scanSums_append]
        by_cases hc : (cb && decide (0 < total)) = true
        · rw [if_pos hc, if_pos hc, if_pos hc, List.map_append]
        · rw [if_neg hc, if_neg hc, if_neg hc]
          rfl
      · rw [if_neg hp, mainLoop, if_neg hp]
        exact ih s

theorem progressPairs_flushFrames {φ ε : Type} (D : Stages φ ε) (ns : List Nat)
    (s : EncSt φ ε) : progressPairs (flushFrames D s ns).2 = [] :=
  progressPairs_eq_nil_of_no_progress _ fun e he => (flushFrames_shape D ns s e he).2

theorem progressPairs_map_write (l : List Nat) : progressPairs (l.map Ev.write) = [] :=
  progressPairs_eq_nil_of_no_progress _ fun e he => by
    rcases List.mem_map.mp he with ⟨p, -, rfl⟩; rfl

/-- Master description of the progress callback invocations of one run:
none unless a callback is set and totalSamples is positive, and in that
case exactly the running sums of the sample counts of the frames
decoded in the main loop, each paired with totalSamples. -/
theorem progressPairs_Encode {φ ε : Type} (D : Stages φ ε) (idx : Int)
    (input : List SrcPacket) (decTail : List Nat) (cb : Bool) (total : Int)
    (f0 : φ) (e0 : ε) :
    progressPairs (Encode D idx input decTail cb total f0 e0) =
      if cb && decide (0 < total) then
        (scanSums 0 (streamFrames idx input)).map (fun d => (d, total))
      else [] := by
  simp only [Encode]
  rw [progressPairs_append,
    show ∀ t : List Ev, progressPairs (Ev.flushDec :: t) = progressPairs t from
      fun t => by simp [progressPairs, List.filterMap_cons],
    progressPairs_append,
    show ∀ t : List Ev, progressPairs (Ev.flushFilt :: t) = progressPairs t from
      fun t => by simp [progressPairs, List.filterMap_cons],
    progressPairs_append,
    show ∀ t : List Ev, progressPairs (Ev.flushEnc :: t) = progressPairs t from
      fun t => by simp [progressPairs, List.filterMap_cons],
    progressPairs_append, progressPairs_map_write,
    progressPairs_flushFrames, progressPairs_encodeFrames,
    progressPairs_mainLoop]
  simp [progressPairs]

theorem getLast?_append_singleton (l : List Ev) (a : Ev) : (l ++ [a]).getLast? = some a := by
  rw [List.getLast?_append_cons]
  rfl

theorem scanSums_chain_le :
    ∀ (ns : List Nat) (s : Nat), List.Chain' (· ≤ ·) (scanSums s ns)
  | [], _ => List.chain'_nil
  | [n], s => by simp [scanSums]
  | n :: m :: ns, s => by
      rw [scanSums, scanSums, List.chain'_cons]
      constructor
      · omega
      · rw [← scanSums]
        exact scanSums_chain_le (m :: ns) (s + n)

theorem Encode_last_trailer {φ ε : Type} (D : Stages φ ε) (idx : Int)
    (input : List SrcPacket) (decTail : List Nat) (cb : Bool) (total : Int)
    (f0 : φ) (e0 : ε) :
    (Encode D idx input decTail cb total f0 e0).getLast? = some Ev.trailer := by
  simp only [Encode]
  rw [show ∀ (a b c d : List Ev),
      a ++ Ev.flushDec :: (b ++ Ev.flushFilt :: (c ++ Ev.flushEnc :: (d ++ [Ev.trailer])))
        = (a ++ Ev.flushDec :: (b ++ Ev.flushFilt :: (c ++ Ev.flushEnc :: d))) ++ [Ev.trailer]
    from fun a b c d => by simp, getLast?_append_singleton]

/-- C7 counterexample: a run with a positive totalSamples and a callback
set, in which the decoder yields one final frame only when drained
after its flush. That frame is decoded during the run, yet the
progress callback is never invoked, refuting the stated property that
the callback fires after every decoded frame. -/
theorem Encode_progress_skips_flush_frames :
    decFrameCount (Encode idStages 0 [] [100] true 1000 () ()) = 1 ∧
    progressPairs (Encode idStages 0 [] [100] true 1000 () ()) = [] := by
  refine ⟨by decide, by decide⟩

/-- C7 amended: if the source stream reports no duration or a
non-positive duration, samples_total stays 0; a run with samples_total
non-positive never invokes the progress callback; an unset callback is
tolerated in all cases (the run still completes through the trailer
with no invocations); and when samples_total is positive and a
callback is set, the callback is invoked exactly once after every
frame decoded in the main read loop, with the running sample count and
samples_total — frames drained from the decoder during the end-of-stream
flush do not trigger it. -/
theorem Encode_progress_policy :
    ∀ (φ ε : Type) (D : Stages φ ε) (idx : Int) (input : List SrcPacket)
      (decTail : List Nat) (f0 : φ) (e0 : ε) (total duration compute : Int),
      (duration ≤ 0 → totalSamplesOf duration compute = 0) ∧
      (total ≤ 0 → progressPairs (Encode D idx input decTail true total f0 e0) = []) ∧
      progressPairs (Encode D idx input decTail false total f0 e0) = [] ∧
      (Encode D idx input decTail false total f0 e0).getLast? = some Ev.trailer ∧
      (0 < total →
        progressPairs (Encode D idx input decTail true total f0 e0)
          = (scanSums 0 (streamFrames idx input)).map fun d => (d, total)) := by
  intro φ ε D idx input decTail f0 e0 total duration compute
  refine ⟨fun hd => ?_, fun ht => ?_, ?_, Encode_last_trailer D idx input decTail false total f0 e0,
    fun ht => ?_⟩
  · rw [totalSamplesOf, if_neg (by omega)]
  · rw [progressPairs_Encode, if_neg]
    simp only [Bool.true_and, Bool.and_eq_true, decide_eq_true_eq]
    omega
  · rw [progressPairs_Encode, if_neg]
    simp
  · rw [progressPairs_Encode, if_pos]
    simp only [Bool.true_and, decide_eq_true_eq]
    exact ht

/-- C7 witness: the policy evaluated at concrete runs. -/
theorem Encode_progress_policy_witness :
    totalSamplesOf (-3) 999 = 0 ∧
    progressPairs (Encode idStages 0 [⟨0, [7]⟩] [] true 0 () ()) = [] ∧
    progressPairs (Encode idStages 0 [⟨0, [7, 8]⟩] [] true 5 () ())
      = (scanSums 0 (streamFrames 0 [⟨0, [7, 8]⟩])).map fun d => (d, 5) :=
  ⟨(Encode_progress_policy Unit Unit idStages 0 [⟨0, [7]⟩] [] () () 0 (-3) 999).1 (by decide),
   (Encode_progress_policy Unit Unit idStages 0 [⟨0, [7]⟩] [] () () 0 (-3) 999).2.1 (by decide),
   (Encode_progress_policy Unit Unit idStages 0 [⟨0, [7, 8]⟩] [] () () 5 (-3) 999).2.2.2.2
     (by decide)⟩

/-- C8: within one run of Encode, the samples_decoded values passed to
successive invocations of the progress callback are non-decreasing
(sample counts are natural numbers, so the running sum never drops). -/
theorem Encode_progress_monotone :
    ∀ (φ ε : Type) (D : Stages φ ε) (idx : Int) (input : List SrcPacket)
      (decTail : List Nat) (cb : Bool) (total : Int) (f0 : φ) (e0 : ε),
      List.Chain' (· ≤ ·)
        ((progressPairs (Encode D idx input decTail cb total f0 e0)).map Prod.fst) := by
  intro φ ε D idx input decTail cb total f0 e0
  rw [progressPairs_Encode]
  by_cases hc : (cb && decide (0 < total)) = true
  · rw [if_pos hc, List.map_map,
      show (Prod.fst ∘ fun d : Nat => (d, total)) = id from rfl, List.map_id]
    exact scanSums_chain_le (streamFrames idx input) 0
  · rw [if_neg hc]
    exact List.chain'_nil
